import Mathlib

/-!
Verification of the game_prices repository's extraction and reconciliation
core: a shallow embedding of the per-site pagination loops
(gamesplanet.py, gamebillet.py, indiegala.py), the defensive field
parsing they perform inline, the name canonicalizer (normalize.py) and
the duplicate-name detector (steam.py), together with theorems settling
the specification's claims about them.
-/

namespace SBase

/-! ## Character-level model of the Python string primitives -/

/-- The code points matched by Python's `\s` regex class on `str`
(equivalently the points where `str.isspace()` holds), used by
`re.sub(r"\s+", " ", s)` and by `str.strip()`. -/
def wsCodes : List Nat :=
  [9, 10, 11, 12, 13, 28, 29, 30, 31, 32, 133, 160, 5760,
   8192, 8193, 8194, 8195, 8196, 8197, 8198, 8199, 8200, 8201, 8202,
   8232, 8233, 8239, 8287, 12288]

/-- Whether a character is whitespace in Python's sense. -/
def pySpace (c : Char) : Bool := decide (c.toNat ∈ wsCodes)

/-- Python's `str.lower()`, modelled on the ASCII range (the only range
exercised by the repository's catalog names; non-ASCII characters are
left unchanged). -/
def pyLower (c : Char) : Char :=
  if 65 ≤ c.toNat ∧ c.toNat ≤ 90 then Char.ofNat (c.toNat + 32) else c

/-- Model of `re.sub(r"\s+", " ", s)`: replace every maximal run of whitespace by a
single space.  The boolean argument records whether the previous character
was part of a whitespace run whose replacement space was already emitted. -/
def collapseWS : Bool → List Char → List Char
  | _, [] => []
  | prev, c :: cs =>
    if pySpace c then
      if prev then collapseWS true cs else ' ' :: collapseWS true cs
    else c :: collapseWS false cs

/-- Python's `str.strip()`: drop leading and trailing whitespace. -/
def stripWS (l : List Char) : List Char :=
  ((l.dropWhile pySpace).reverse.dropWhile pySpace).reverse

/-- The canonicalizer `normalize` from normalize.py:
`re.sub(r"\s+", " ", s).strip().lower()`. -/
def normalize (s : String) : String :=
  ⟨(stripWS (collapseWS false s.data)).map pyLower⟩

/-! ## Model of Python's numeric constructors `float()` and `int()`

Modelled on plain decimal literals (optional sign, digits, optional
fractional part), the only shapes the scraped price/discount strings
take; exponents, `inf`/`nan` and digit underscores are not modelled.
`none` stands for the `ValueError` the constructor raises. -/

/-- ASCII decimal digit test. -/
def isDigitCh (c : Char) : Bool := 48 ≤ c.toNat && c.toNat ≤ 57

/-- Value of a digit string read left to right. -/
def natOfDigits (l : List Char) : Nat :=
  l.foldl (fun a c => 10 * a + (c.toNat - 48)) 0

/-- Unsigned part of `float()`: `digits`, `digits.digits`, `digits.` or
`.digits`, whose value is the exact rational
(integer-part * 10 ^ |fraction| + fraction) / 10 ^ |fraction|;
anything else is a `ValueError`. -/
def parseUnsignedFloat (l : List Char) : Option Rat :=
  match l.dropWhile isDigitCh with
  | [] =>
    if (l.takeWhile isDigitCh).isEmpty then none
    else some (mkRat (natOfDigits (l.takeWhile isDigitCh)) 1)
  | '.' :: rest2 =>
    if (rest2.dropWhile isDigitCh).isEmpty
        && !((l.takeWhile isDigitCh).isEmpty && (rest2.takeWhile isDigitCh).isEmpty) then
      some (mkRat
        (natOfDigits (l.takeWhile isDigitCh) * 10 ^ (rest2.takeWhile isDigitCh).length
          + natOfDigits (rest2.takeWhile isDigitCh))
        (10 ^ (rest2.takeWhile isDigitCh).length))
    else none
  | _ => none

/-- Python `float(s)` on finite decimal literals: strips surrounding
whitespace, optional sign, decimal literal; raises (`none`) otherwise.
`float()` additionally accepts the non-finite spellings recognised by
`pyFloatSpecial` below (whose values, inf and nan, have no rational
counterpart) and non-ASCII Unicode decimal digits; theorems that rely on
`float()` raising therefore restrict their input by hypothesis to ASCII
digit-free strings that do not carry one of those spellings. -/
def pyFloat (s : String) : Option Rat :=
  match stripWS s.data with
  | '+' :: r => parseUnsignedFloat r
  | '-' :: r => (parseUnsignedFloat r).map Neg.neg
  | r => parseUnsignedFloat r

/-- The special spellings `float()` accepts besides decimal literals:
`inf`, `infinity` and `nan`, case-insensitively (after the optional
sign handled in `pyFloatSpecial`). -/
def floatSpecialCore (l : List Char) : Bool :=
  l.map pyLower = "inf".data || l.map pyLower = "infinity".data
    || l.map pyLower = "nan".data

/-- Whether `float()` would accept the string as an infinity/nan literal:
surrounding whitespace stripped, optional sign, then one of the special
spellings. -/
def pyFloatSpecial (l : List Char) : Bool :=
  match stripWS l with
  | '+' :: r => floatSpecialCore r
  | '-' :: r => floatSpecialCore r
  | r => floatSpecialCore r

/-- Unsigned part of `int()`: a nonempty digit string. -/
def parseUnsignedInt (l : List Char) : Option Int :=
  if !l.isEmpty && l.all isDigitCh then some (natOfDigits l) else none

/-- Python `int(s)`: strips surrounding whitespace, optional sign, digit
string; raises (`none`) otherwise.  `int()` also accepts non-ASCII
Unicode decimal digits (e.g. Arabic-Indic digits), which this model does
not cover; theorems that rely on `int()` raising therefore restrict
their input by hypothesis to ASCII strings, on which the model is
faithful. -/
def pyInt (s : String) : Option Int :=
  match stripWS s.data with
  | '+' :: r => parseUnsignedInt r
  | '-' :: r => (parseUnsignedInt r).map Neg.neg
  | r => parseUnsignedInt r

/-- Python `str.replace(old, "")` for a single-character `old`, as used by the
inline price/discount cleanups (`.replace("$", "")` etc.). -/
def removeChar (x : Char) (l : List Char) : List Char :=
  l.filter (fun c => c ≠ x)

/-- Helper for `str.removeprefix(pre)`: the remainder when `pre` is a prefix. -/
def dropPre : List Char → List Char → Option (List Char)
  | [], l => some l
  | _ :: _, [] => none
  | p :: ps, c :: cs => if p = c then dropPre ps cs else none

/-- Python `str.removeprefix(pre)`: drop `pre` when it is a prefix, else return
the string unchanged. -/
def pyRemovePre (pre l : List Char) : List Char := (dropPre pre l).getD l

/-! ## Inline field parsers

gamebillet.py wraps its `int()`/`float()` calls in `try/except ValueError`
and falls back to `0`; gamesplanet.py calls them unprotected, so a parse
failure propagates (modelled as `none`). -/

/-- gamebillet.py lines 77-83:
`int(discount_str.removeprefix("Sale").replace("-", "").replace("%", ""))`
with `except ValueError: discount = 0`. -/
def gbParseDiscount (s : String) : Int :=
  (pyInt ⟨removeChar '%' (removeChar '-' (pyRemovePre "Sale".data s.data))⟩).getD 0

/-- gamebillet.py lines 85-88:
`float(price_str.replace("$", "").replace(",", ""))` with
`except ValueError: price = 0`. -/
def gbParsePrice (s : String) : Rat :=
  (pyFloat ⟨removeChar ',' (removeChar '$' s.data)⟩).getD 0

/-- gamesplanet.py line 68:
`float(price_str.replace("$", "").replace(",", ""))`, unprotected. -/
def gpParsePrice (s : String) : Option Rat :=
  pyFloat ⟨removeChar ',' (removeChar '$' s.data)⟩

/-- gamesplanet.py lines 77-81:
`float(base_price_elem.text.replace("$", "").replace("%", "").replace(",", ""))`,
unprotected. -/
def gpParseBase (s : String) : Option Rat :=
  pyFloat ⟨removeChar ',' (removeChar '%' (removeChar '$' s.data))⟩

/-- gamesplanet.py lines 83-87:
`int(discount_str.replace("-", "").replace("%", "").replace(",", ""))`,
unprotected. -/
def gpParseDiscount (s : String) : Option Int :=
  pyInt ⟨removeChar ',' (removeChar '%' (removeChar '-' s.data))⟩

/-! ## Extraction records and page nodes -/

/-- Python exception kinds arising in the loops: `AttributeError` from
`.text` on a missing node, `ValueError` from `int()`/`float()`, the
renderer's no-such-element error from `find`, and any other failure. -/
inductive PyErr where
  | attributeError
  | valueError
  | noSuchElement
  | other
deriving DecidableEq

/-- The record `GamesplanetPrice` from gamesplanet.py (field order as in source). -/
structure GamesplanetPrice where
  name : String
  original_price : Rat
  discount : Int
  price : Rat
deriving DecidableEq

/-- The record `GamebilletPrice` from gamebillet.py. -/
structure GamebilletPrice where
  name : String
  percent_discount : Int
  price : Rat
deriving DecidableEq

instance instExceptDecEq {ε α : Type} [DecidableEq ε] [DecidableEq α] :
    DecidableEq (Except ε α) := fun x y =>
  match x, y with
  | Except.error a, Except.error b =>
    if h : a = b then Decidable.isTrue (h ▸ rfl)
    else Decidable.isFalse (fun he => h (by injection he))
  | Except.error _, Except.ok _ => Decidable.isFalse (fun he => Except.noConfusion he)
  | Except.ok _, Except.error _ => Decidable.isFalse (fun he => Except.noConfusion he)
  | Except.ok a, Except.ok b =>
    if h : a = b then Decidable.isTrue (h ▸ rfl)
    else Decidable.isFalse (fun he => h (by injection he))

/-- One gamesplanet item node: text of the sub-fields the extractor
queries (`h4 a`, `.price_current`, `.price_base strike`, `.price_saving`);
`none` when the selector matches nothing — in which case reading `.text`
raises `AttributeError`, and a failing `int()`/`float()` raises
`ValueError`. -/
structure GpItemNode where
  name : Option String
  price : Option String
  basePrice : Option String
  saving : Option String
deriving DecidableEq

/-- gamesplanet.py lines 63-94: extract one item.  The current price is
parsed first; when the struck-through base price is present the entry is
discounted (original = struck price, discount from `.price_saving`,
price = current), otherwise original = price and discount = 0. -/
def gpExtractItem (it : GpItemNode) : Except PyErr GamesplanetPrice :=
  match it.name with
  | none => Except.error PyErr.attributeError
  | some name =>
    match it.price with
    | none => Except.error PyErr.attributeError
    | some priceStr =>
      match gpParsePrice priceStr with
      | none => Except.error PyErr.valueError
      | some price =>
        match it.basePrice with
        | some bp =>
          match gpParseBase bp with
          | none => Except.error PyErr.valueError
          | some op =>
            match it.saving with
            | none => Except.error PyErr.attributeError
            | some savingStr =>
              match gpParseDiscount savingStr with
              | none => Except.error PyErr.valueError
              | some d => Except.ok ⟨name, op, d, price⟩
        | none => Except.ok ⟨name, price, 0, price⟩

/-- Extract all item nodes of one gamesplanet page, in order. -/
def gpExtractPage (items : List GpItemNode) : Except PyErr (List GamesplanetPrice) :=
  items.mapM gpExtractItem

/-- One gamebillet item node (`h3 a`, `.buy-wrapper a`, `.buy-wrapper span`). -/
structure GbItemNode where
  name : Option String
  discount : Option String
  price : Option String
deriving DecidableEq

/-- gamebillet.py lines 70-90: extract one item with the zero-defaulting
parsers; a missing name/discount/price node raises `AttributeError` at
`.text`. -/
def gbExtractItem (it : GbItemNode) : Except PyErr GamebilletPrice :=
  match it.name with
  | none => Except.error PyErr.attributeError
  | some name =>
    match it.discount with
    | none => Except.error PyErr.attributeError
    | some discountStr =>
      match it.price with
      | none => Except.error PyErr.attributeError
      | some priceStr =>
        Except.ok ⟨name, gbParseDiscount discountStr, gbParsePrice priceStr⟩

/-- Extract all item nodes of one gamebillet page, in order. -/
def gbExtractPage (items : List GbItemNode) : Except PyErr (List GamebilletPrice) :=
  items.mapM gbExtractItem

/-! ## Pagination loops -/

/-- Outcome of `sb.cdp.find(css_next_page)` on a page: the control was
found, or the lookup raised the no-such-element error, or it raised some
other exception (e.g. the renderer is unreachable). -/
inductive FindOutcome where
  | found
  | failNotFound
  | failOther
deriving DecidableEq

/-- One gamesplanet listing page as the loop observes it. -/
structure GpPage where
  items : List GpItemNode
  findNext : FindOutcome

/-- gamesplanet.py lines 54-108: body of
`for i in range(1, total_pages + 1)`.  Each iteration extracts the current
page and appends it, then probes the next-page control inside
`try: ... except Exception: break` — so the loop breaks on ANY lookup
failure, and advances on success.  `fuel` is the number of range
iterations left; the accumulator carries the count of pages extracted and
the concatenated snapshot. -/
def gpLoop (pages : Nat → GpPage) :
    Nat → Nat → Nat × List GamesplanetPrice →
    Except PyErr (Nat × List GamesplanetPrice)
  | 0, _, acc => Except.ok acc
  | fuel + 1, idx, acc =>
    match gpExtractPage (pages idx).items with
    | Except.error e => Except.error e
    | Except.ok entries =>
      let acc2 := (acc.1 + 1, acc.2 ++ entries)
      match (pages idx).findNext with
      | FindOutcome.found => gpLoop pages fuel (idx + 1) acc2
      | FindOutcome.failNotFound => Except.ok acc2
      | FindOutcome.failOther => Except.ok acc2

/-- A full gamesplanet run: the counted loop over `total_pages` pages
starting from the first page. -/
def gpRun (totalPages : Nat) (pages : Nat → GpPage) :
    Except PyErr (Nat × List GamesplanetPrice) :=
  gpLoop pages totalPages 0 (0, [])

/-- The disabled-sentinel href carried by gamebillet's next control on the
last page. -/
def voidHref : String := "javascript:void(0);"

/-- One gamebillet listing page: its item nodes, and the result of
`find(css_next_page)` followed by `get_attribute("href")` (`Except.error`
when `find` itself raises; the attribute may be absent). -/
structure GbPage where
  items : List GbItemNode
  nextHref : Except PyErr (Option String)

/-- gamebillet.py lines 60-104: the `while True` loop.  Each iteration
extracts the current page and appends it, then reads the next control's
href: the void-href sentinel terminates, anything else advances.  `none`
means the fuel ran out before the loop terminated. -/
def gbLoop (pages : Nat → GbPage) :
    Nat → Nat → Nat × List GamebilletPrice →
    Option (Except PyErr (Nat × List GamebilletPrice))
  | 0, _, _ => none
  | fuel + 1, idx, acc =>
    match gbExtractPage (pages idx).items with
    | Except.error e => some (Except.error e)
    | Except.ok entries =>
      let acc2 := (acc.1 + 1, acc.2 ++ entries)
      match (pages idx).nextHref with
      | Except.error e => some (Except.error e)
      | Except.ok href =>
        if href = some voidHref then some (Except.ok acc2)
        else gbLoop pages fuel (idx + 1) acc2

/-- A full gamebillet run from the first page. -/
def gbRun (pages : Nat → GbPage) (fuel : Nat) :
    Option (Except PyErr (Nat × List GamebilletPrice)) :=
  gbLoop pages fuel 0 (0, [])

/-! ## Indiegala carousel cycle detection -/

/-- The record `Game` from indiegala.py. -/
structure Game where
  name : String
  developer : String
deriving DecidableEq

/-- indiegala.py lines 78-94: the bundle-carousel loop.  Read the active
item; stop the first time its name was already seen, otherwise record it,
add the name to the seen set, and click to the next slide.  `read i` is
the item shown after `i` clicks; `none` means fuel ran out. -/
def igLoop (read : Nat → Game) :
    Nat → Nat → List String → List Game → Option (List Game)
  | 0, _, _, _ => none
  | fuel + 1, i, seen, games =>
    if (read i).name ∈ seen then some games
    else igLoop read fuel (i + 1) ((read i).name :: seen) (games ++ [read i])

/-- A carousel of `items` that advances one slide per click and wraps
around at the end. -/
def igCarouselRead (items : List Game) (i : Nat) : Game :=
  items.getD (i % items.length) ⟨"", ""⟩

/-- The carousel loop run against a wrapping carousel of `items`. -/
def igRun (items : List Game) (fuel : Nat) : Option (List Game) :=
  igLoop (igCarouselRead items) fuel 0 [] []

/-! ## Reconciliation and duplicate-name detection -/

/-- normalize.py lines 36-49: the per-retailer diff.  Both sides are
normalized name-by-name, turned into sets, and the retailer set minus the
reference set is reported. -/
def reconcileDiff (retailer reference : List String) : Finset String :=
  (retailer.map normalize).toFinset \ (reference.map normalize).toFinset

/-- The record `Item` from steam.py, restricted to the fields the duplicate detector
reads (each purchase option contributes only its name). -/
structure Item where
  name : String
  appid : Int
  purchase_options : List String
deriving DecidableEq

/-- The keys one item feeds into `counts`: its own name and every
purchase-option name (steam.py lines 70-73). -/
def itemKeys (it : Item) : List String := it.name :: it.purchase_options

/-- steam.py lines 69-73: `counts[k]` is the set of appids of the items
that produced key `k` via their name or a purchase-option name. -/
def counts (items : List Item) (k : String) : Finset Int :=
  ((items.filter (fun it => decide (k ∈ itemKeys it))).map (fun it => it.appid)).toFinset

/-- steam.py line 77: the keys of `counts` (each produced key once) whose
appid-set has more than one member. -/
def reused (items : List Item) : List String :=
  ((items.flatMap itemKeys).dedup).filter (fun k => decide (1 < (counts items k).card))

/-! ## Properties of the canonicalizer -/

theorem toNat_ofNat_lowercase (n : Nat) (h1 : 97 ≤ n) (h2 : n ≤ 122) :
    (Char.ofNat n).toNat = n := by
  interval_cases n <;> decide

theorem pySpace_pyLower (c : Char) : pySpace (pyLower c) = pySpace c := by
  unfold pyLower
  by_cases h : 65 ≤ c.toNat ∧ c.toNat ≤ 90
  · have ht : (Char.ofNat (c.toNat + 32)).toNat = c.toNat + 32 :=
      toNat_ofNat_lowercase _ (by omega) (by omega)
    have h1 : pySpace (Char.ofNat (c.toNat + 32)) = false := by
      simp only [pySpace, wsCodes, ht, decide_eq_false_iff_not, List.mem_cons,
        List.not_mem_nil, or_false]
      omega
    have h2 : pySpace c = false := by
      simp only [pySpace, wsCodes, decide_eq_false_iff_not, List.mem_cons,
        List.not_mem_nil, or_false]
      omega
    rw [if_pos h, h1, h2]
  · rw [if_neg h]

theorem pyLower_not_upper (c : Char) :
    ¬(65 ≤ (pyLower c).toNat ∧ (pyLower c).toNat ≤ 90) := by
  unfold pyLower
  by_cases h : 65 ≤ c.toNat ∧ c.toNat ≤ 90
  · rw [if_pos h, toNat_ofNat_lowercase (c.toNat + 32) (by omega) (by omega)]
    omega
  · rw [if_neg h]; exact h

theorem pyLower_pyLower (c : Char) : pyLower (pyLower c) = pyLower c := by
  conv_lhs => rw [pyLower]
  rw [if_neg (pyLower_not_upper c)]

theorem pyLower_space : pyLower ' ' = ' ' := by decide

/-- Every whitespace character in a collapsed string is the plain space
that `re.sub` substituted. -/
def WSOnly (l : List Char) : Prop := ∀ c ∈ l, pySpace c = true → c = ' '

/-- No two adjacent characters are both whitespace. -/
def NoWSRun (l : List Char) : Prop :=
  List.Chain' (fun a b => ¬(pySpace a = true ∧ pySpace b = true)) l

/-- The first character, when any, is not whitespace. -/
def HeadNotWS (l : List Char) : Prop := ∀ c ∈ l.head?, pySpace c = false

/-- The last character, when any, is not whitespace. -/
def LastNotWS (l : List Char) : Prop := ∀ c ∈ l.getLast?, pySpace c = false

theorem wsOnly_collapseWS (b : Bool) (l : List Char) : WSOnly (collapseWS b l) := by
  induction l generalizing b with
  | nil => intro c hc _; simp [collapseWS] at hc
  | cons c cs ih =>
    intro x hx hs
    by_cases hc : pySpace c
    · cases b with
      | true =>
        rw [collapseWS, if_pos hc, if_pos rfl] at hx
        exact ih true x hx hs
      | false =>
        rw [collapseWS, if_pos hc, if_neg (by simp)] at hx
        rcases List.mem_cons.mp hx with h | h
        · exact h
        · exact ih true x h hs
    · rw [collapseWS, if_neg hc] at hx
      rcases List.mem_cons.mp hx with h | h
      · subst h; exact absurd hs (by simpa using hc)
      · exact ih false x h hs

theorem headNotWS_collapseWS_true (l : List Char) : HeadNotWS (collapseWS true l) := by
  induction l with
  | nil => intro c hc; simp [collapseWS] at hc
  | cons c cs ih =>
    intro x hx
    by_cases hc : pySpace c
    · rw [collapseWS, if_pos hc, if_pos rfl] at hx
      exact ih x hx
    · rw [collapseWS, if_neg hc] at hx
      simp only [List.head?_cons, Option.mem_def, Option.some.injEq] at hx
      subst hx
      simpa using hc

theorem noWSRun_collapseWS (b : Bool) (l : List Char) : NoWSRun (collapseWS b l) := by
  induction l generalizing b with
  | nil => simp [collapseWS, NoWSRun]
  | cons c cs ih =>
    by_cases hc : pySpace c
    · cases b with
      | true =>
        rw [NoWSRun, collapseWS, if_pos hc, if_pos rfl]
        exact ih true
      | false =>
        rw [NoWSRun, collapseWS, if_pos hc, if_neg (by simp)]
        rw [List.chain'_cons']
        refine ⟨?_, ih true⟩
        intro y hy
        have := headNotWS_collapseWS_true cs y hy
        simp [this]
    · rw [NoWSRun, collapseWS, if_neg hc]
      rw [List.chain'_cons']
      refine ⟨?_, ih false⟩
      intro y hy
      simp [hc]

theorem collapseWS_noop (l : List Char) (hw : WSOnly l) (hr : NoWSRun l) :
    collapseWS false l = l ∧ (HeadNotWS l → collapseWS true l = l) := by
  induction l with
  | nil => simp [collapseWS]
  | cons c cs ih =>
    have hw' : WSOnly cs := fun x hx => hw x (List.mem_cons_of_mem _ hx)
    have hpair := List.chain'_cons'.mp hr
    have hr' : NoWSRun cs := hpair.2
    by_cases hc : pySpace c
    · have hceq : c = ' ' := hw c (List.mem_cons_self _ _) hc
      have hcs : HeadNotWS cs := by
        intro y hy
        by_contra hy'
        exact hpair.1 y hy ⟨hc, by simpa using hy'⟩
      constructor
      · rw [collapseWS, if_pos hc, if_neg (by simp)]
        rw [(ih hw' hr').2 hcs, hceq]
      · intro hhead
        have := hhead c (by simp)
        rw [hc] at this
        exact absurd this (by simp)
    · constructor
      · rw [collapseWS, if_neg hc, (ih hw' hr').1]
      · intro _
        rw [collapseWS, if_neg hc, (ih hw' hr').1]

theorem dropWhile_noop (l : List Char) (h : HeadNotWS l) :
    l.dropWhile pySpace = l := by
  cases l with
  | nil => rfl
  | cons c cs =>
    have hc := h c (by simp)
    simp [List.dropWhile, hc]

theorem headNotWS_dropWhile (l : List Char) : HeadNotWS (l.dropWhile pySpace) := by
  induction l with
  | nil => intro c hc; simp at hc
  | cons c cs ih =>
    by_cases hc : pySpace c
    · simpa [List.dropWhile, hc] using ih
    · intro x hx
      simp only [List.dropWhile, hc, List.head?_cons, Option.mem_def,
        Option.some.injEq] at hx
      subst hx
      simpa using hc

theorem stripWS_headNotWS (l : List Char) : HeadNotWS (stripWS l) := by
  intro x hx
  unfold stripWS at hx
  rw [List.head?_reverse, Option.mem_def] at hx
  obtain ⟨t, ht⟩ := List.dropWhile_suffix (l := (l.dropWhile pySpace).reverse) pySpace
  have h1 : (l.dropWhile pySpace).reverse.getLast? = some x := by
    rw [← ht, List.getLast?_append, hx, Option.or_some]
  rw [List.getLast?_reverse] at h1
  exact headNotWS_dropWhile l x h1

theorem stripWS_lastNotWS (l : List Char) : LastNotWS (stripWS l) := by
  intro x hx
  unfold stripWS at hx
  rw [List.getLast?_reverse] at hx
  exact headNotWS_dropWhile _ x hx

theorem stripWS_noop (l : List Char) (h1 : HeadNotWS l) (h2 : LastNotWS l) :
    stripWS l = l := by
  unfold stripWS
  rw [dropWhile_noop l h1]
  have hrev : HeadNotWS l.reverse := by
    intro c hc
    rw [List.head?_reverse] at hc
    exact h2 c hc
  rw [dropWhile_noop l.reverse hrev, List.reverse_reverse]

theorem stripWS_idem (l : List Char) : stripWS (stripWS l) = stripWS l :=
  stripWS_noop _ (stripWS_headNotWS l) (stripWS_lastNotWS l)

theorem stripWS_subset (l : List Char) : ∀ x ∈ stripWS l, x ∈ l := by
  intro x hx
  unfold stripWS at hx
  rw [List.mem_reverse] at hx
  have h1 := (List.dropWhile_sublist (l := (l.dropWhile pySpace).reverse) pySpace).mem hx
  rw [List.mem_reverse] at h1
  exact (List.dropWhile_sublist pySpace).mem h1

theorem wsOnly_stripWS (l : List Char) (h : WSOnly l) : WSOnly (stripWS l) :=
  fun c hc hs => h c (stripWS_subset l c hc) hs

theorem noWSRun_stripWS (l : List Char) (h : NoWSRun l) : NoWSRun (stripWS l) := by
  unfold NoWSRun stripWS
  rw [List.chain'_reverse]
  have h1 : NoWSRun (l.dropWhile pySpace) :=
    List.Chain'.suffix h (List.dropWhile_suffix pySpace)
  have h2 : List.Chain'
      (flip fun a b => ¬(pySpace a = true ∧ pySpace b = true))
      (l.dropWhile pySpace).reverse := by
    rw [List.chain'_reverse]
    exact h1.imp (fun a b hab => hab)
  exact List.Chain'.suffix h2 (List.dropWhile_suffix pySpace)

theorem collapseWS_map_pyLower (b : Bool) (l : List Char) :
    collapseWS b (l.map pyLower) = (collapseWS b l).map pyLower := by
  induction l generalizing b with
  | nil => simp [collapseWS]
  | cons c cs ih =>
    by_cases hc : pySpace c
    · have hc2 : pySpace (pyLower c) = true := by rw [pySpace_pyLower]; exact hc
      cases b with
      | true =>
        rw [List.map_cons, collapseWS, if_pos hc2, if_pos rfl,
          collapseWS, if_pos hc, if_pos rfl]
        exact ih true
      | false =>
        rw [List.map_cons, collapseWS, if_pos hc2, if_neg (by simp),
          collapseWS, if_pos hc, if_neg (by simp), List.map_cons, pyLower_space]
        rw [ih true]
    · have hc2 : pySpace (pyLower c) = false := by
        rw [pySpace_pyLower]; simpa using hc
      rw [List.map_cons, collapseWS, if_neg (by simp [hc2]),
        collapseWS, if_neg hc, List.map_cons]
      rw [ih false]

theorem stripWS_map_pyLower (l : List Char) :
    stripWS (l.map pyLower) = (stripWS l).map pyLower := by
  have hps : (pySpace ∘ pyLower) = pySpace := funext pySpace_pyLower
  unfold stripWS
  rw [List.dropWhile_map, hps, ← List.map_reverse, List.dropWhile_map, hps,
    ← List.map_reverse]

/-- C8: the canonicalizer of normalize.py is idempotent — collapsing
whitespace runs, trimming, and case-folding a string that has already
been normalized leaves it unchanged. -/
theorem normalize_idem (s : String) : normalize (normalize s) = normalize s := by
  unfold normalize
  apply congrArg String.mk
  show (stripWS (collapseWS false ((stripWS (collapseWS false s.data)).map pyLower))).map pyLower
    = (stripWS (collapseWS false s.data)).map pyLower
  set y := collapseWS false s.data with hy
  set z := stripWS y with hz
  have hcol : collapseWS false z = z :=
    (collapseWS_noop z (wsOnly_stripWS y (wsOnly_collapseWS false s.data))
      (noWSRun_stripWS y (noWSRun_collapseWS false s.data))).1
  rw [collapseWS_map_pyLower, hcol, stripWS_map_pyLower, hz, stripWS_idem,
    List.map_map]
  exact List.map_congr_left (fun a _ => pyLower_pyLower a)

/-! ## Reconciliation claims -/

/-- C3: the reconciliation diff is the set difference of normalized name
sets, retailer minus reference — a key is reported iff some retailer name
canonicalizes to it and no reference name does — and on reference
{"Foo", "Bar"} against retailer {"foo", "BAR", "Baz"} the reported diff
is exactly {"baz"}. -/
theorem reconcileDiff_spec :
    (∀ (retailer reference : List String) (x : String),
      x ∈ reconcileDiff retailer reference ↔
        ((∃ n ∈ retailer, normalize n = x) ∧ ∀ n ∈ reference, normalize n ≠ x))
    ∧ reconcileDiff ["foo", "BAR", "Baz"] ["Foo", "Bar"] = {"baz"} := by
  constructor
  · intro retailer reference x
    simp only [reconcileDiff, Finset.mem_sdiff, List.mem_toFinset, List.mem_map]
    push_neg
    constructor
    · rintro ⟨⟨n, hn, he⟩, hall⟩
      exact ⟨⟨n, hn, he⟩, fun n hn he => (hall n hn) he⟩
    · rintro ⟨⟨n, hn, he⟩, hall⟩
      exact ⟨⟨n, hn, he⟩, fun n hn => hall n hn⟩
  · decide

/-- C7: the duplicate-name detector reports a key as reused exactly when
the set of reference item ids producing it (via the item name or any
purchase-option name) has more than one member; two distinct ids both
producing "goty edition" place that key in the output, while a key
produced by a single id is not reported. -/
theorem reused_iff :
    (∀ (items : List Item) (k : String),
       k ∈ reused items ↔ 1 < (counts items k).card)
    ∧ "goty edition" ∈ reused
        [⟨"A", 1, ["goty edition"]⟩, ⟨"B", 2, ["goty edition"]⟩]
    ∧ "A" ∉ reused
        [⟨"A", 1, ["goty edition"]⟩, ⟨"B", 2, ["goty edition"]⟩] := by
  refine ⟨?_, by decide, by decide⟩
  intro items k
  unfold reused
  rw [List.mem_filter]
  constructor
  · rintro ⟨-, h⟩
    exact of_decide_eq_true h
  · intro h
    refine ⟨?_, decide_eq_true h⟩
    rw [List.mem_dedup, List.mem_flatMap]
    have hne : (counts items k).Nonempty := Finset.card_pos.mp (by omega)
    obtain ⟨a, ha⟩ := hne
    unfold counts at ha
    rw [List.mem_toFinset, List.mem_map] at ha
    obtain ⟨it, hit, -⟩ := ha
    rw [List.mem_filter] at hit
    exact ⟨it, hit.1, of_decide_eq_true hit.2⟩

/-! ## Extraction-shape claims -/

/-- C4: on a simple-shape item node whose struck-through original price is
present, the extracted entry takes the struck price as original_price, the
savings field as discount, and the current price as price; when the struck
field is absent the entry has original_price = price and discount 0. -/
theorem gamesplanet_simple_shape
    (name pstr bstr dstr : String) (p op : Rat) (d : Int)
    (hp : gpParsePrice pstr = some p)
    (hb : gpParseBase bstr = some op)
    (hd : gpParseDiscount dstr = some d) :
    gpExtractItem ⟨some name, some pstr, some bstr, some dstr⟩
      = Except.ok ⟨name, op, d, p⟩
    ∧ gpExtractItem ⟨some name, some pstr, none, none⟩
      = Except.ok ⟨name, p, 0, p⟩ := by
  constructor
  · simp only [gpExtractItem]
    rw [hp, hb, hd]
  · simp only [gpExtractItem]
    rw [hp]

/-- Witness for C4 at the spec's end-to-end numbers: struck $19.99,
current $9.99, savings 50% (prices as exact rationals). -/
theorem gamesplanet_simple_shape_witness :
    gpExtractItem ⟨some "Game", some "$9.99", some "$19.99", some "-50%"⟩
      = Except.ok ⟨"Game", mkRat 1999 100, 50, mkRat 999 100⟩
    ∧ gpExtractItem ⟨some "Game", some "$9.99", none, none⟩
      = Except.ok ⟨"Game", mkRat 999 100, 0, mkRat 999 100⟩ :=
  gamesplanet_simple_shape "Game" "$9.99" "$19.99" "-50%" (mkRat 999 100)
    (mkRat 1999 100) 50 (by decide) (by decide) (by decide)

/-! ## Field-parser claims -/

theorem takeWhile_nil_of_none (p : Char → Bool) (l : List Char)
    (h : ∀ c ∈ l, p c = false) : l.takeWhile p = [] := by
  cases l with
  | nil => rfl
  | cons a as => simp [List.takeWhile_cons, h a (List.mem_cons_self a as)]

theorem dropWhile_id_of_none (p : Char → Bool) (l : List Char)
    (h : ∀ c ∈ l, p c = false) : l.dropWhile p = l := by
  cases l with
  | nil => rfl
  | cons a as => simp [List.dropWhile_cons, h a (List.mem_cons_self a as)]

theorem parseUnsignedFloat_none (l : List Char)
    (h : ∀ c ∈ l, isDigitCh c = false) : parseUnsignedFloat l = none := by
  cases l with
  | nil => rfl
  | cons c cs =>
    have hcs : ∀ x ∈ cs, isDigitCh x = false :=
      fun x hx => h x (List.mem_cons_of_mem _ hx)
    unfold parseUnsignedFloat
    rw [dropWhile_id_of_none _ _ h, takeWhile_nil_of_none _ _ h]
    by_cases hdot : c = '.'
    · subst hdot
      simp [takeWhile_nil_of_none _ _ hcs]
    · split
      · rfl
      · rename_i heq
        injection heq with h1 _
        exact absurd h1 hdot
      · rfl

theorem parseUnsignedInt_none (l : List Char)
    (h : ∀ c ∈ l, isDigitCh c = false) : parseUnsignedInt l = none := by
  unfold parseUnsignedInt
  cases l with
  | nil => rfl
  | cons a as => simp [List.all_cons, h a (List.mem_cons_self a as)]

theorem pyFloat_none (s : String) (h : ∀ c ∈ s.data, isDigitCh c = false) :
    pyFloat s = none := by
  have hsub : ∀ c ∈ stripWS s.data, isDigitCh c = false :=
    fun c hc => h c (stripWS_subset s.data c hc)
  unfold pyFloat
  split
  · rename_i r heq
    exact parseUnsignedFloat_none r
      (fun c hc => hsub c (heq ▸ List.mem_cons_of_mem _ hc))
  · rename_i r heq
    rw [parseUnsignedFloat_none r
      (fun c hc => hsub c (heq ▸ List.mem_cons_of_mem _ hc))]
    rfl
  · exact parseUnsignedFloat_none _ hsub

theorem pyInt_none (s : String) (h : ∀ c ∈ s.data, isDigitCh c = false) :
    pyInt s = none := by
  have hsub : ∀ c ∈ stripWS s.data, isDigitCh c = false :=
    fun c hc => h c (stripWS_subset s.data c hc)
  unfold pyInt
  split
  · rename_i r heq
    exact parseUnsignedInt_none r
      (fun c hc => hsub c (heq ▸ List.mem_cons_of_mem _ hc))
  · rename_i r heq
    rw [parseUnsignedInt_none r
      (fun c hc => hsub c (heq ▸ List.mem_cons_of_mem _ hc))]
    rfl
  · exact parseUnsignedInt_none _ hsub

theorem dropPre_mem (pre l r : List Char) (h : dropPre pre l = some r) :
    ∀ x ∈ r, x ∈ l := by
  induction pre generalizing l with
  | nil =>
    intro x hx
    unfold dropPre at h
    injection h with h
    exact h ▸ hx
  | cons p ps ih =>
    cases l with
    | nil => exact absurd h (by simp [dropPre])
    | cons c cs =>
      intro x hx
      unfold dropPre at h
      by_cases hpc : p = c
      · rw [if_pos hpc] at h
        exact List.mem_cons_of_mem _ (ih cs h x hx)
      · rw [if_neg hpc] at h
        exact absurd h (by simp)

theorem pyRemovePre_mem (pre l : List Char) : ∀ x ∈ pyRemovePre pre l, x ∈ l := by
  intro x hx
  unfold pyRemovePre at hx
  cases hd : dropPre pre l with
  | none => rw [hd] at hx; exact hx
  | some r => rw [hd] at hx; exact dropPre_mem pre l r hd x hx

theorem removeChar_mem (a : Char) (l : List Char) :
    ∀ x ∈ removeChar a l, x ∈ l :=
  fun x hx => (List.mem_filter.mp hx).1

/-- C5 counterexample: the gamesplanet price parse is not total — on the
empty string the unprotected `float()` raises a `ValueError` (modelled as
`none`) instead of returning 0. -/
theorem gamesplanet_price_parse_raises : gpParsePrice "" = none := by decide

/-- C5 (amended): the gamebillet parsers (whose `int()`/`float()` calls
are guarded by `except ValueError`) return 0 on ASCII digit-free input —
provided, for the price parser, the cleaned-up text does not spell one
of the infinity/nan literals that `float()` accepts — and the correct
values 1234.50 for "$1,234.50" and 25 for "-25%" and "Sale-25%"; the
gamesplanet inline parses are unprotected and raise on empty or
non-numeric text instead of returning 0. -/
theorem field_parsers_amended (s : String)
    (hs : ∀ c ∈ s.data, c.toNat < 128 ∧ isDigitCh c = false)
    (hspec : pyFloatSpecial (removeChar ',' (removeChar '$' s.data)) = false) :
    gbParseDiscount s = 0 ∧ gbParsePrice s = 0
    ∧ gbParsePrice "$1,234.50" = (1234.50 : Rat)
    ∧ gbParseDiscount "-25%" = 25
    ∧ gbParseDiscount "Sale-25%" = 25
    ∧ gpParsePrice "" = none
    ∧ gpParseDiscount "" = none := by
  refine ⟨?_, ?_, ?_, by decide, by decide, by decide, by decide⟩
  · have hres : ∀ c ∈ (String.mk (removeChar '%' (removeChar '-'
        (pyRemovePre "Sale".data s.data)))).data, isDigitCh c = false := by
      intro c hc
      exact (hs c (pyRemovePre_mem _ _ c
        (removeChar_mem '-' _ c (removeChar_mem '%' _ c hc)))).2
    unfold gbParseDiscount
    rw [pyInt_none _ hres]
    rfl
  · have hres : ∀ c ∈ (String.mk (removeChar ','
        (removeChar '$' s.data))).data, isDigitCh c = false := by
      intro c hc
      exact (hs c (removeChar_mem '$' _ c (removeChar_mem ',' _ c hc))).2
    unfold gbParsePrice
    rw [pyFloat_none _ hres]
    rfl
  · rw [show (1234.50 : Rat) = mkRat 123450 100 by rw [Rat.mkRat_eq_div]; norm_num]
    decide

/-- Witness for C5, instantiated at the empty string (ASCII, digit-free,
and not an infinity/nan spelling). -/
theorem field_parsers_amended_witness :
    gbParseDiscount "" = 0 ∧ gbParsePrice "" = 0
    ∧ gbParsePrice "$1,234.50" = (1234.50 : Rat)
    ∧ gbParseDiscount "-25%" = 25
    ∧ gbParseDiscount "Sale-25%" = 25
    ∧ gpParsePrice "" = none
    ∧ gpParseDiscount "" = none :=
  field_parsers_amended "" (by decide) (by decide)

/-! ## The CatalogEntry invariant (spec §3) -/

/-- The data-model invariant the spec states for extracted entries:
discount within [0, 100], and price at most original_price whenever the
entry is discounted. -/
def entryInvariant (e : GamesplanetPrice) : Prop :=
  0 ≤ e.discount ∧ e.discount ≤ 100 ∧ (0 < e.discount → e.price ≤ e.original_price)

theorem parseUnsignedInt_nonneg (l : List Char) (d : Int)
    (h : parseUnsignedInt l = some d) : 0 ≤ d := by
  unfold parseUnsignedInt at h
  split at h
  · injection h with h
    exact h ▸ Int.natCast_nonneg _
  · exact absurd h (by simp)

theorem pyInt_nonneg_no_minus (s : String) (d : Int)
    (hm : '-' ∉ s.data) (h : pyInt s = some d) : 0 ≤ d := by
  unfold pyInt at h
  split at h
  · exact parseUnsignedInt_nonneg _ _ h
  · rename_i r heq
    have : '-' ∈ stripWS s.data := heq ▸ List.mem_cons_self _ _
    exact absurd (stripWS_subset _ _ this) hm
  · exact parseUnsignedInt_nonneg _ _ h

theorem gpParseDiscount_nonneg (s : String) (d : Int)
    (h : gpParseDiscount s = some d) : 0 ≤ d := by
  unfold gpParseDiscount at h
  apply pyInt_nonneg_no_minus _ _ _ h
  intro hmem
  have h1 := removeChar_mem ',' _ '-' hmem
  have h2 := removeChar_mem '%' _ '-' h1
  have h3 := (List.mem_filter.mp h2).2
  simp at h3

/-- Inversion of a successful gamesplanet item extraction: either the
struck price was absent (discount 0, price = original), or the node was
discounted and the entry's discount is the parsed savings value. -/
theorem gpExtractItem_ok_inv (node : GpItemNode) (e : GamesplanetPrice)
    (h : gpExtractItem node = Except.ok e) :
    (node.basePrice = none ∧ e.discount = 0 ∧ e.price = e.original_price)
    ∨ (∃ bp sv, node.basePrice = some bp ∧ node.saving = some sv
        ∧ gpParseDiscount sv = some e.discount) := by
  obtain ⟨n, pr, b, sv⟩ := node
  cases n with
  | none => exact absurd h (by simp [gpExtractItem])
  | some nm =>
  cases pr with
  | none => exact absurd h (by simp [gpExtractItem])
  | some ps =>
  cases hpp : gpParsePrice ps with
  | none => simp [gpExtractItem, hpp] at h
  | some pv =>
  cases b with
  | none =>
    left
    simp only [gpExtractItem, hpp, Except.ok.injEq] at h
    subst h
    exact ⟨rfl, rfl, rfl⟩
  | some bp =>
  cases hbb : gpParseBase bp with
  | none => simp [gpExtractItem, hpp, hbb] at h
  | some op =>
  cases sv with
  | none => simp [gpExtractItem, hpp, hbb] at h
  | some svs =>
  cases hdd : gpParseDiscount svs with
  | none => simp [gpExtractItem, hpp, hbb, hdd] at h
  | some d =>
    right
    simp only [gpExtractItem, hpp, hbb, hdd, Except.ok.injEq] at h
    subst h
    exact ⟨bp, svs, rfl, rfl, hdd⟩

/-- C9 counterexample: extraction happily produces an entry with
discount_percent 200 and price above original_price from a page whose
savings text is "-200%" and whose struck price is below the current
price, so the invariant does not hold of every produced entry. -/
theorem catalog_invariant_counterexample :
    gpExtractItem ⟨some "X", some "$10.00", some "$5.00", some "-200%"⟩
      = Except.ok ⟨"X", mkRat 500 100, 200, mkRat 1000 100⟩
    ∧ ¬ entryInvariant ⟨"X", mkRat 500 100, 200, mkRat 1000 100⟩ := by
  refine ⟨by decide, ?_⟩
  unfold entryInvariant
  decide

/-- C9 (amended): an entry extracted from a node without a struck price
always satisfies the invariant; an entry from a discounted node satisfies
it provided the parsed savings value is at most 100 and the current price
does not exceed the struck price — the extractor itself enforces neither
bound. -/
theorem catalog_invariant_amended (node : GpItemNode) (e : GamesplanetPrice)
    (h : gpExtractItem node = Except.ok e) :
    (node.basePrice = none → entryInvariant e)
    ∧ (e.discount ≤ 100 → (0 < e.discount → e.price ≤ e.original_price)
        → entryInvariant e) := by
  have hinv := gpExtractItem_ok_inv node e h
  constructor
  · intro hb
    rcases hinv with ⟨-, hd, hpe⟩ | ⟨bp, sv, hbp, -, -⟩
    · refine ⟨by omega, by omega, fun hlt => absurd hlt (by omega)⟩
    · rw [hb] at hbp
      exact absurd hbp (by simp)
  · intro h1 h2
    rcases hinv with ⟨-, hd, -⟩ | ⟨bp, sv, -, -, hsv⟩
    · exact ⟨by omega, h1, h2⟩
    · exact ⟨gpParseDiscount_nonneg sv e.discount hsv, h1, h2⟩

/-- Witness for C9 at the spec's example entry (struck $19.99, current
$9.99, savings 50%). -/
theorem catalog_invariant_amended_witness :
    entryInvariant ⟨"Game", mkRat 1999 100, 50, mkRat 999 100⟩ :=
  (catalog_invariant_amended
      ⟨some "Game", some "$9.99", some "$19.99", some "-50%"⟩
      ⟨"Game", mkRat 1999 100, 50, mkRat 999 100⟩ (by decide)).2
    (by decide) (fun _ => by decide)

/-! ## Pagination-loop claims -/

theorem gpLoop_count_le (pages : Nat → GpPage) :
    ∀ (fuel idx cnt : Nat) (out : List GamesplanetPrice)
      (n : Nat) (res : List GamesplanetPrice),
      gpLoop pages fuel idx (cnt, out) = Except.ok (n, res) → n ≤ cnt + fuel := by
  intro fuel
  induction fuel with
  | zero =>
    intro idx cnt out n res h
    rw [gpLoop] at h
    injection h with h
    rw [Prod.mk.injEq] at h
    omega
  | succ f ih =>
    intro idx cnt out n res h
    rw [gpLoop] at h
    cases hx : gpExtractPage (pages idx).items with
    | error e => rw [hx] at h; exact absurd h (by simp)
    | ok entries =>
      rw [hx] at h
      cases hf : (pages idx).findNext with
      | found =>
        rw [hf] at h
        have := ih (idx + 1) (cnt + 1) (out ++ entries) n res h
        omega
      | failNotFound =>
        rw [hf] at h
        injection h with h
        rw [Prod.mk.injEq] at h
        omega
      | failOther =>
        rw [hf] at h
        injection h with h
        rw [Prod.mk.injEq] at h
        omega

/-- C10: the gamesplanet run is a counted loop — whatever the pages
contain and however the next-page probes behave, a run that completes
normally has extracted at most `totalPages` pages, the count read from
the first page's pagination control. -/
theorem gamesplanet_counted_bound (totalPages : Nat) (pages : Nat → GpPage)
    (n : Nat) (out : List GamesplanetPrice)
    (h : gpRun totalPages pages = Except.ok (n, out)) : n ≤ totalPages := by
  have := gpLoop_count_le pages totalPages 0 0 [] n out h
  omega

/-- A run of empty pages whose next-page probe always succeeds. -/
def gpPagesAllFound : Nat → GpPage := fun _ => ⟨[], FindOutcome.found⟩

/-- Witness for C10: a 3-page run of empty pages extracts exactly 3
pages, within the bound. -/
theorem gamesplanet_counted_bound_witness : (3 : Nat) ≤ 3 :=
  gamesplanet_counted_bound 3 gpPagesAllFound 3 [] (by decide)

/-- Pages whose next-page lookup raises a non-absence failure (e.g. the
renderer is unreachable), and pages whose lookup raises no-such-element. -/
def gpPagesFailOther : Nat → GpPage := fun _ => ⟨[], FindOutcome.failOther⟩

/-- Pages whose next-page lookup raises the no-such-element error. -/
def gpPagesNotFound : Nat → GpPage := fun _ => ⟨[], FindOutcome.failNotFound⟩

/-- C1, evaluated at the failing input: when the next-page lookup fails
for a non-absence reason on the first page of a 5-page run, the
`except Exception` handler breaks out of the loop and the run completes
normally with a truncated 1-page snapshot — exactly the same outcome as a
genuine no-such-element termination — instead of raising fatally. -/
theorem gamesplanet_probe_conflates_failures :
    gpRun 5 gpPagesFailOther = Except.ok (1, [])
    ∧ gpRun 5 gpPagesNotFound = Except.ok (1, []) := by
  constructor
  · decide
  · decide

theorem flatten_ext_shift (ext : Nat → List GamebilletPrice) (start k : Nat) :
    ext start ++ ((List.range (k + 1)).map (fun i => ext (start + 1 + i))).flatten
      = ((List.range (k + 1 + 1)).map (fun i => ext (start + i))).flatten := by
  conv_rhs => rw [List.range_succ_eq_map, List.map_cons, List.flatten_cons, List.map_map]
  congr 1
  congr 1
  apply List.map_congr_left
  intro a _
  show ext (start + 1 + a) = ext (start + (a + 1))
  congr 1
  omega

theorem gbLoop_terminates (pages : Nat → GbPage) (ext : Nat → List GamebilletPrice) :
    ∀ (n start cnt : Nat) (out : List GamebilletPrice) (fuel : Nat),
      0 < n → n ≤ fuel →
      (∀ i, i < n → gbExtractPage (pages (start + i)).items = Except.ok (ext (start + i))) →
      (∀ i, i + 1 < n →
        ∃ h, (pages (start + i)).nextHref = Except.ok h ∧ h ≠ some voidHref) →
      (pages (start + n - 1)).nextHref = Except.ok (some voidHref) →
      gbLoop pages fuel start (cnt, out)
        = some (Except.ok (cnt + n,
            out ++ ((List.range n).map (fun i => ext (start + i))).flatten)) := by
  intro n
  induction n with
  | zero => intro start cnt out fuel h0; omega
  | succ m ih =>
    intro start cnt out fuel h0 hfuel hext hadv hlast
    obtain ⟨f, rfl⟩ : ∃ f, fuel = f + 1 := ⟨fuel - 1, by omega⟩
    rw [gbLoop]
    have he0 := hext 0 (by omega)
    rw [Nat.add_zero] at he0
    rw [he0]
    cases m with
    | zero =>
      have hl : (pages start).nextHref = Except.ok (some voidHref) := by
        have := hlast
        rwa [show start + 1 - 1 = start by omega] at this
      rw [hl]
      show (if some voidHref = some voidHref
          then some (Except.ok (cnt + 1, out ++ ext start))
          else gbLoop pages f (start + 1) (cnt + 1, out ++ ext start)) = _
      rw [if_pos rfl]
      simp [List.range_succ]
    | succ k =>
      obtain ⟨href, hh, hne⟩ := hadv 0 (by omega)
      rw [Nat.add_zero] at hh
      rw [hh]
      show (if href = some voidHref
          then some (Except.ok (cnt + 1, out ++ ext start))
          else gbLoop pages f (start + 1) (cnt + 1, out ++ ext start)) = _
      rw [if_neg hne]
      have hstep := ih (start + 1) (cnt + 1) (out ++ ext start) f (by omega) (by omega)
        (by
          intro i hi
          have := hext (i + 1) (by omega)
          rwa [show start + (i + 1) = start + 1 + i by omega] at this)
        (by
          intro i hi
          have := hadv (i + 1) (by omega)
          rwa [show start + (i + 1) = start + 1 + i by omega] at this)
        (by
          have := hlast
          rwa [show start + (k + 1 + 1) - 1 = start + 1 + (k + 1) - 1 by omega] at this)
      rw [hstep]
      have hnum : cnt + 1 + (k + 1) = cnt + (k + 1 + 1) := by omega
      have hlist : (out ++ ext start)
            ++ ((List.range (k + 1)).map (fun i => ext (start + 1 + i))).flatten
          = out ++ ((List.range (k + 1 + 1)).map (fun i => ext (start + i))).flatten := by
        rw [List.append_assoc]
        congr 1
        exact flatten_ext_shift ext start k
      rw [hnum, hlist]

/-- C2: under the explicit-disabled policy, a run over pages whose Nth
page is the first to carry the void-href sentinel on its next control
performs exactly N extract-and-append iterations and returns the
concatenation of the N pages' extracted items in page order. -/
theorem gamebillet_run_explicit_disabled
    (pages : Nat → GbPage) (ext : Nat → List GamebilletPrice) (N fuel : Nat)
    (hN : 0 < N) (hfuel : N ≤ fuel)
    (hext : ∀ i, i < N → gbExtractPage (pages i).items = Except.ok (ext i))
    (hadv : ∀ i, i + 1 < N →
      ∃ h, (pages i).nextHref = Except.ok h ∧ h ≠ some voidHref)
    (hlast : (pages (N - 1)).nextHref = Except.ok (some voidHref)) :
    gbRun pages fuel = some (Except.ok (N, ((List.range N).map ext).flatten)) := by
  unfold gbRun
  have := gbLoop_terminates pages ext N 0 0 [] fuel hN hfuel
    (by simpa using hext) (by simpa using hadv) (by simpa using hlast)
  simpa using this

/-- A concrete two-page gamebillet listing: the second page's next
control carries the void-href sentinel. -/
def gbPagesW : Nat → GbPage := fun i =>
  if i = 0 then
    { items := [⟨some "A", some "Sale-50%", some "$4.99"⟩],
      nextHref := Except.ok (some "/allproducts?page=2") }
  else
    { items := [⟨some "B", some "-10%", some "$2.00"⟩],
      nextHref := Except.ok (some voidHref) }

/-- The per-page extraction results of `gbPagesW`. -/
def gbExtW : Nat → List GamebilletPrice := fun i =>
  if i = 0 then [⟨"A", 50, mkRat 499 100⟩] else [⟨"B", 10, mkRat 200 100⟩]

/-- Witness for C2: the two-page run stops at page 2 with both pages'
items concatenated in order. -/
theorem gamebillet_run_explicit_disabled_witness :
    gbRun gbPagesW 4
      = some (Except.ok (2, [⟨"A", 50, mkRat 499 100⟩, ⟨"B", 10, mkRat 200 100⟩])) :=
  gamebillet_run_explicit_disabled gbPagesW gbExtW 2 4 (by decide) (by decide)
    (fun i hi => by interval_cases i <;> decide)
    (fun i hi => by
      have h0 : i = 0 := by omega
      subst h0
      exact ⟨some "/allproducts?page=2", by decide, by decide⟩)
    (by decide)

/-! ## Carousel cycle-detection claims -/

theorem nodup_not_mem_take {α : Type} (L : List α) (hnd : L.Nodup) (j : Nat)
    (hj : j < L.length) : L.get ⟨j, hj⟩ ∉ L.take j := by
  intro hmem
  obtain ⟨i, hi, hieq⟩ := List.getElem_of_mem hmem
  have hi2 : i < j := by
    have := hi
    simp [List.length_take] at this
    omega
  rw [List.getElem_take] at hieq
  have : i = j := (List.Nodup.getElem_inj_iff hnd).mp hieq
  omega

theorem igLoop_carousel (items : List Game) (hne : items ≠ [])
    (hnd : (items.map Game.name).Nodup) :
    ∀ (n j : Nat), j + n = items.length →
      ∀ fuel, n + 1 ≤ fuel →
      igLoop (igCarouselRead items) fuel j
        (((items.take j).map Game.name).reverse) (items.take j)
        = some items := by
  intro n
  induction n with
  | zero =>
    intro j hj fuel hfuel
    obtain ⟨f, rfl⟩ : ∃ f, fuel = f + 1 := ⟨fuel - 1, by omega⟩
    have hlen : 0 < items.length := List.length_pos.mpr hne
    have hj' : j = items.length := by omega
    subst hj'
    rw [igLoop]
    have hread : igCarouselRead items items.length = items.getD 0 ⟨"", ""⟩ := by
      unfold igCarouselRead
      rw [Nat.mod_self]
    rw [hread, List.take_length]
    have hmem : (items.getD 0 ⟨"", ""⟩).name ∈ (items.map Game.name).reverse := by
      rw [List.mem_reverse, List.getD_eq_getElem _ _ hlen]
      exact List.mem_map_of_mem _ (List.getElem_mem hlen)
    rw [if_pos hmem]
  | succ m ih =>
    intro j hj fuel hfuel
    obtain ⟨f, rfl⟩ : ∃ f, fuel = f + 1 := ⟨fuel - 1, by omega⟩
    have hjlt : j < items.length := by omega
    rw [igLoop]
    have hread : igCarouselRead items j = items.getD j ⟨"", ""⟩ := by
      unfold igCarouselRead
      rw [Nat.mod_eq_of_lt hjlt]
    rw [hread]
    have hjlt2 : j < (items.map Game.name).length := by simpa using hjlt
    have hnotmem : (items.getD j ⟨"", ""⟩).name
        ∉ ((items.take j).map Game.name).reverse := by
      rw [List.mem_reverse, List.getD_eq_getElem _ _ hjlt, List.map_take]
      intro hmem
      exact nodup_not_mem_take _ hnd j hjlt2
        (by rw [List.get_eq_getElem, List.getElem_map]; exact hmem)
    rw [if_neg hnotmem]
    have htake : items.take (j + 1) = items.take j ++ [items.getD j ⟨"", ""⟩] := by
      rw [List.take_succ, List.getElem?_eq_getElem hjlt, List.getD_eq_getElem _ _ hjlt]
      rfl
    have hseen : (items.getD j ⟨"", ""⟩).name :: ((items.take j).map Game.name).reverse
        = ((items.take (j + 1)).map Game.name).reverse := by
      rw [htake, List.map_append, List.reverse_append]
      rfl
    have hgames : items.take j ++ [items.getD j ⟨"", ""⟩] = items.take (j + 1) :=
      htake.symm
    rw [hseen, hgames]
    exact ih (j + 1) (by omega) f (by omega)

/-- C6: the carousel loop collects names into a seen-set and stops the
first time a freshly read name repeats: over a wrapping carousel of K
distinct items it terminates (with any fuel of at least K + 1 reads) after
collecting exactly the K items, none duplicated. -/
theorem indiegala_cycle (items : List Game) (fuel : Nat)
    (hne : items ≠ []) (hnd : (items.map Game.name).Nodup)
    (hfuel : items.length + 1 ≤ fuel) :
    igRun items fuel = some items := by
  unfold igRun
  have := igLoop_carousel items hne hnd items.length 0 (by omega) fuel (by omega)
  simpa using this

/-- A concrete 3-item carousel. -/
def igItemsW : List Game := [⟨"a", "d1"⟩, ⟨"b", "d2"⟩, ⟨"c", "d3"⟩]

/-- Witness for C6: the 3-item carousel run terminates on the 4th read
with exactly the 3 items. -/
theorem indiegala_cycle_witness : igRun igItemsW 4 = some igItemsW :=
  indiegala_cycle igItemsW 4 (by decide) (by decide) (by decide)

end SBase
